import Mathlib

/-!
Verification of the proto-generation script gen-xai-protos.py.

The script is a linear pipeline: dependency probe, shallow git clone,
descriptor-set assembly by a depth-first traversal over descriptor
dependency graphs, and a single protoc invocation.  We embed:

* the fixed configuration tables (proto file list, path mappings,
  vtproto feature string, required tools, module list) as Lean data;
* the recursive add function of build_descriptor_set as a fuel-indexed
  recursion over an explicit finite descriptor graph (file names with
  declared dependency edges); the fuel only bounds the nesting depth of
  the Python recursion, and we prove the result is independent of the
  fuel once it exceeds the number of file names in play;
* the protoc command construction of protoc_generate;
* the script's effectful control flow (tool-directory check, require
  probes, rmtree/mkdir, clone, imports, descriptor write, protoc run)
  as a pure function from an environment description to a trace of
  side-effect events plus an outcome.
-/

namespace GenXaiProtos

/-- GO_MODULE constant of the script. -/
def GO_MODULE : String := "github.com/zchee/tumix/gollm/xai"

/-- DEFAULT_REF constant of the script. -/
def DEFAULT_REF : String := "main"

/-- PROTO_FILES: the three generation targets, in source order. -/
def PROTO_FILES : List String :=
  ["xai/api/v1/collections.proto", "xai/api/v1/shared.proto", "xai/api/v1/types.proto"]

/-- MAPPINGS: the proto-file to Go-import-path dict, in insertion order. -/
def MAPPINGS : List (String × String) :=
  [("xai/api/v1/collections.proto", GO_MODULE ++ "/api/v1/collectionspb"),
   ("xai/api/v1/shared.proto", GO_MODULE ++ "/api/v1/sharedpb"),
   ("xai/api/v1/types.proto", GO_MODULE ++ "/api/v1/ragpb")]

/-- VT_FEATURES constant of the script. -/
def VT_FEATURES : String :=
  "size+equal+marshal+marshal_strict+unmarshal+unmarshal_unsafe+clone+pool"

/-- The five executables probed by require, in probe order. -/
def REQUIRED_TOOLS : List String :=
  ["git", "protoc", "protoc-gen-go", "protoc-gen-go-grpc", "protoc-gen-go-vtproto"]

/-- The three generated python modules imported by build_descriptor_set,
in source order. -/
def MODULES : List String :=
  ["xai_sdk.proto.v6.collections_pb2",
   "xai_sdk.proto.v6.types_pb2",
   "xai_sdk.proto.v6.shared_pb2"]

/-! ## Descriptor graphs and the traversal of build_descriptor_set -/

/-- A finite descriptor dependency graph: each node is a descriptor file
name together with the file names of its declared dependencies
(fd.dependencies in the script).  Nothing forces acyclicity. -/
structure DescriptorGraph where
  nodes : List (String × List String)
deriving DecidableEq, Repr

/-- Declared dependencies of a file name: the dependency list of the
first node carrying that name, empty for unknown names. -/
def depsOf (g : DescriptorGraph) (n : String) : List String :=
  match g.nodes.find? (fun p => p.1 == n) with
  | some p => p.2
  | none => []

/-- All node names of the graph. -/
def keyNames (g : DescriptorGraph) : List String := g.nodes.map Prod.fst

/-- All names occurring as a declared dependency somewhere in the graph. -/
def depNames (g : DescriptorGraph) : List String :=
  g.nodes.flatMap Prod.snd

/-- Every name the graph mentions. -/
def allNames (g : DescriptorGraph) : List String := keyNames g ++ depNames g

/-- State of the traversal: the seen set of file names and the file list
of the FileDescriptorSet under construction, each appended descriptor
identified by its file name. -/
structure BState where
  seen : List String
  file : List String
deriving DecidableEq, Repr

/-- The recursive add closure of build_descriptor_set: return at once if
the name was seen, otherwise record the name as seen, append the
descriptor, and recurse over its declared dependencies in order.  The
fuel argument bounds the recursion depth; lemmas below show any fuel
larger than the number of names in play gives the same result. -/
def add (g : DescriptorGraph) : Nat → String → BState → BState
  | 0, _, st => st
  | fuel + 1, n, st =>
    if n ∈ st.seen then st
    else (depsOf g n).foldl (fun s d => add g fuel d s) ⟨n :: st.seen, st.file ++ [n]⟩

/-- Running add over a list of names in order (the dependency loop of
add, and the module loop of build_descriptor_set). -/
def addList (g : DescriptorGraph) (fuel : Nat) (ds : List String) (st : BState) : BState :=
  ds.foldl (fun s d => add g fuel d s) st

/-- A stock of fuel that the lemmas below prove sufficient: one more
than the number of names mentioned by the roots and the graph. -/
def suffFuel (g : DescriptorGraph) (roots : List String) : Nat :=
  (roots ++ allNames g).length + 1

/-- One full run of build_descriptor_set: starting from an empty seen
set and an empty FileDescriptorSet, add each root descriptor (the
DESCRIPTOR of each imported module, in module order). -/
def build_descriptor_set (g : DescriptorGraph) (roots : List String) : BState :=
  addList g (suffFuel g roots) roots ⟨[], []⟩

/-- Reachability along declared dependency edges, reflexively and
transitively. -/
inductive Reaches (g : DescriptorGraph) : String → String → Prop
  | refl (n : String) : Reaches g n n
  | step {a b c : String} : b ∈ depsOf g a → Reaches g b c → Reaches g a c

/-! ## The protoc command of protoc_generate -/

/-- The comma-joined M-mapping fragment shared by the three option
strings. -/
def mappingOpts : String :=
  String.intercalate "," (MAPPINGS.map (fun p => "M" ++ p.1 ++ "=" ++ p.2))

/-- Option string of the go plugin. -/
def go_opt : String := "module=" ++ GO_MODULE ++ "," ++ mappingOpts

/-- Option string of the go-grpc plugin. -/
def grpc_opt : String :=
  "module=" ++ GO_MODULE ++ ",require_unimplemented_servers=true," ++ mappingOpts

/-- Option string of the go-vtproto plugin. -/
def vt_opt : String :=
  "module=" ++ GO_MODULE ++ ",features=" ++ VT_FEATURES ++ "," ++ mappingOpts

/-- The argv assembled by protoc_generate, given the output root and the
descriptor-set file path. -/
def protoc_cmd (root desc : String) : List String :=
  ["protoc", "--descriptor_set_in=" ++ desc] ++ PROTO_FILES ++
    ["--go_out=" ++ root, "--go_opt=" ++ go_opt,
     "--go-grpc_out=" ++ root, "--go-grpc_opt=" ++ grpc_opt,
     "--go-vtproto_out=" ++ root, "--go-vtproto_opt=" ++ vt_opt]

/-- The external-compiler invocations performed by protoc_generate: a
single subprocess call. -/
def protoc_invocations (root desc : String) : List (List String) :=
  [protoc_cmd root desc]

/-! ## Paths derived from the environment (main) -/

/-- Joining of pathlib paths, modelled as string concatenation with a
slash separator. -/
def pathJoin (a b : String) : String := a ++ "/" ++ b

/-- tmp_base of main: XAI_PY_PROTO_TMP if set, else the platform temp
directory, extended by xai-sdk-python-proto. -/
def tmpBase (envTmp : Option String) (tempdir : String) : String :=
  pathJoin (envTmp.getD tempdir) "xai-sdk-python-proto"

/-- paths.clone of main. -/
def cloneDest (envTmp : Option String) (tempdir : String) : String :=
  pathJoin (tmpBase envTmp tempdir) "src"

/-- paths.desc of main. -/
def descFile (envTmp : Option String) (tempdir : String) : String :=
  pathJoin (tmpBase envTmp tempdir) "xai-sdk-python.desc"

/-- The argv of the git clone performed by clone_python_sdk. -/
def gitCloneCmd (ref dest : String) : List String :=
  ["git", "clone", "--depth", "1", "--branch", ref,
   "https://github.com/xai-org/xai-sdk-python.git", dest]

/-! ## Effect-trace model of the script's control flow -/

/-- One observable side effect of the script. -/
inductive Event where
  | rmtree (p : String)
  | mkdir (p : String)
  | gitClone (cmd : List String)
  | addSysPath (p : String)
  | importMod (m : String)
  | writeDesc (p : String)
  | runProtoc (cmd : List String)
  | printMsg (s : String)
deriving DecidableEq, Repr

/-- How a run ends: normally, by sys.exit with a message (non-zero), by
an uncaught CalledProcessError from a checked subprocess, or by an
uncaught import error. -/
inductive Outcome where
  | ok
  | exitFailure (msg : String)
  | procFailure (cmd : List String)
  | importFailure (m : String)
deriving DecidableEq, Repr

/-- The environment a run faces: where the repository sits, whether the
tools directory and the scratch directory exist, which executables
resolve on the base search path and which live in tools/bin, the two
environment variables, the temp directory, and whether each external
step (imports, clone, protoc) succeeds. -/
structure World where
  repoRoot : String
  toolDirExists : Bool
  whichBase : String → Bool
  inToolDir : String → Bool
  envRef : Option String
  envTmp : Option String
  tempdir : String
  tmpExists : Bool
  importOk : String → Bool
  cloneOk : Bool
  protocOk : Bool

/-- tool_dir of the main guard: four parents up from the script, then
tools/bin. -/
def toolDirPath (w : World) : String := pathJoin (pathJoin w.repoRoot "tools") "bin"

/-- Resolvability after PATH has been extended by tools/bin. -/
def whichAfterAppend (w : World) (t : String) : Bool := w.whichBase t || w.inToolDir t

/-- The first require probe to fail, if any, in probe order. -/
def firstMissing (w : World) : Option String :=
  REQUIRED_TOOLS.find? (fun t => !whichAfterAppend w t)

/-- The body of main: scratch reset, clone, descriptor assembly
effects, protoc invocation, final message.  Returns the event trace and
the outcome. -/
def mainRun (w : World) : List Event × Outcome :=
  let ref := w.envRef.getD DEFAULT_REF
  let tmp := tmpBase w.envTmp w.tempdir
  let clone := cloneDest w.envTmp w.tempdir
  let desc := descFile w.envTmp w.tempdir
  let root := pathJoin (pathJoin w.repoRoot "gollm") "xai"
  let t1 := (if w.tmpExists then [Event.rmtree tmp] else []) ++
    [Event.mkdir tmp, Event.gitClone (gitCloneCmd ref clone)]
  if !w.cloneOk then (t1, Outcome.procFailure (gitCloneCmd ref clone))
  else
    let t2 := t1 ++ [Event.addSysPath (pathJoin clone "src")] ++
      (MODULES.takeWhile (fun m => w.importOk m)).map Event.importMod
    match MODULES.dropWhile (fun m => w.importOk m) with
    | m :: _ => (t2, Outcome.importFailure m)
    | [] =>
      let t3 := t2 ++ [Event.mkdir tmp, Event.writeDesc desc,
        Event.runProtoc (protoc_cmd root desc)]
      if !w.protocOk then (t3, Outcome.procFailure (protoc_cmd root desc))
      else
        (t3 ++ [Event.printMsg
          ("Regenerated collections/shared/types protos from xai-sdk-python @ " ++ ref)],
         Outcome.ok)

/-- The whole script: the tools-directory guard, the five require
probes (against the PATH extended by tools/bin), then main. -/
def script (w : World) : List Event × Outcome :=
  if !w.toolDirExists then
    ([], Outcome.exitFailure ("missing tools directory: " ++ toolDirPath w))
  else
    match firstMissing w with
    | some t => ([], Outcome.exitFailure ("missing dependency: " ++ t))
    | none => mainRun w

/-! ## Basic equations and monotonicity of the traversal -/

theorem add_zero (g : DescriptorGraph) (n : String) (st : BState) :
    add g 0 n st = st := rfl

theorem add_succ (g : DescriptorGraph) (fuel : Nat) (n : String) (st : BState) :
    add g (fuel + 1) n st =
      if n ∈ st.seen then st
      else addList g fuel (depsOf g n) ⟨n :: st.seen, st.file ++ [n]⟩ := rfl

theorem addList_nil (g : DescriptorGraph) (fuel : Nat) (st : BState) :
    addList g fuel [] st = st := rfl

theorem addList_cons (g : DescriptorGraph) (fuel : Nat) (d : String) (ds : List String)
    (st : BState) : addList g fuel (d :: ds) st = addList g fuel ds (add g fuel d st) := rfl

theorem add_of_mem_seen (g : DescriptorGraph) (fuel : Nat) (n : String) (st : BState)
    (h : n ∈ st.seen) : add g fuel n st = st := by
  cases fuel with
  | zero => rfl
  | succ f => rw [add_succ, if_pos h]

theorem seen_subset_add (g : DescriptorGraph) :
    ∀ (fuel : Nat) (n : String) (st : BState), st.seen ⊆ (add g fuel n st).seen := by
  intro fuel
  induction fuel with
  | zero => intro n st; exact fun x hx => hx
  | succ f ih =>
    intro n st
    rw [add_succ]
    by_cases h : n ∈ st.seen
    · rw [if_pos h]; exact fun x hx => hx
    · rw [if_neg h]
      have hstep : ∀ (ds : List String) (st' : BState),
          st'.seen ⊆ (addList g f ds st').seen := by
        intro ds
        induction ds with
        | nil => intro st'; exact fun x hx => hx
        | cons d ds ihd =>
          intro st'
          rw [addList_cons]
          exact fun x hx => ihd _ (ih d st' hx)
      exact fun x hx => hstep _ _ (List.mem_cons_of_mem _ hx)

theorem seen_subset_addList (g : DescriptorGraph) (fuel : Nat) :
    ∀ (ds : List String) (st : BState), st.seen ⊆ (addList g fuel ds st).seen := by
  intro ds
  induction ds with
  | nil => intro st; exact fun x hx => hx
  | cons d ds ih =>
    intro st
    rw [addList_cons]
    exact fun x hx => ih _ (seen_subset_add g fuel d st hx)

theorem file_extend_add (g : DescriptorGraph) :
    ∀ (fuel : Nat) (n : String) (st : BState), ∃ t, (add g fuel n st).file = st.file ++ t := by
  intro fuel
  induction fuel with
  | zero => intro n st; exact ⟨[], (List.append_nil _).symm⟩
  | succ f ih =>
    intro n st
    rw [add_succ]
    by_cases h : n ∈ st.seen
    · rw [if_pos h]; exact ⟨[], (List.append_nil _).symm⟩
    · rw [if_neg h]
      have hstep : ∀ (ds : List String) (st' : BState),
          ∃ t, (addList g f ds st').file = st'.file ++ t := by
        intro ds
        induction ds with
        | nil => intro st'; exact ⟨[], (List.append_nil _).symm⟩
        | cons d ds ihd =>
          intro st'
          rw [addList_cons]
          obtain ⟨t1, ht1⟩ := ih d st'
          obtain ⟨t2, ht2⟩ := ihd (add g f d st')
          exact ⟨t1 ++ t2, by rw [ht2, ht1, List.append_assoc]⟩
      obtain ⟨t, ht⟩ := hstep (depsOf g n) ⟨n :: st.seen, st.file ++ [n]⟩
      exact ⟨n :: t, by rw [ht]; simp⟩

theorem file_extend_addList (g : DescriptorGraph) (fuel : Nat) :
    ∀ (ds : List String) (st : BState), ∃ t, (addList g fuel ds st).file = st.file ++ t := by
  intro ds
  induction ds with
  | nil => intro st; exact ⟨[], (List.append_nil _).symm⟩
  | cons d ds ih =>
    intro st
    rw [addList_cons]
    obtain ⟨t1, ht1⟩ := file_extend_add g fuel d st
    obtain ⟨t2, ht2⟩ := ih (add g fuel d st)
    exact ⟨t1 ++ t2, by rw [ht2, ht1, List.append_assoc]⟩

/-! ## The dedup invariant: the file list has no duplicates and lists
exactly the seen names -/

/-- Invariant tying the seen set to the assembled file list. -/
def Inv (st : BState) : Prop :=
  st.file.Nodup ∧ ∀ x, x ∈ st.seen ↔ x ∈ st.file

theorem inv_add (g : DescriptorGraph) :
    ∀ (fuel : Nat) (n : String) (st : BState), Inv st → Inv (add g fuel n st) := by
  intro fuel
  induction fuel with
  | zero => intro n st h; exact h
  | succ f ih =>
    intro n st h
    rw [add_succ]
    by_cases hn : n ∈ st.seen
    · rw [if_pos hn]; exact h
    · rw [if_neg hn]
      have hstep : ∀ (ds : List String) (st' : BState), Inv st' →
          Inv (addList g f ds st') := by
        intro ds
        induction ds with
        | nil => intro st' h'; exact h'
        | cons d ds ihd =>
          intro st' h'
          rw [addList_cons]
          exact ihd _ (ih d st' h')
      refine hstep _ _ ⟨?_, ?_⟩
      · have hnf : n ∉ st.file := fun hm => hn ((h.2 n).mpr hm)
        simp [List.nodup_append, h.1, hnf]
      · intro x
        simp only [List.mem_cons, List.mem_append, List.mem_singleton, h.2 x]
        tauto

theorem inv_addList (g : DescriptorGraph) (fuel : Nat) :
    ∀ (ds : List String) (st : BState), Inv st → Inv (addList g fuel ds st) := by
  intro ds
  induction ds with
  | nil => intro st h; exact h
  | cons d ds ih =>
    intro st h
    rw [addList_cons]
    exact ih _ (inv_add g fuel d st h)

/-! ## Every processed name ends up in the seen set -/

theorem mem_seen_add (g : DescriptorGraph) (fuel : Nat) (n : String) (st : BState)
    (hf : 0 < fuel) : n ∈ (add g fuel n st).seen := by
  cases fuel with
  | zero => exact absurd hf (by omega)
  | succ f =>
    rw [add_succ]
    by_cases h : n ∈ st.seen
    · rw [if_pos h]; exact h
    · rw [if_neg h]
      exact seen_subset_addList g f _ _ (List.mem_cons_self n st.seen)

theorem mem_seen_addList (g : DescriptorGraph) (fuel : Nat) (hf : 0 < fuel) :
    ∀ (ds : List String) (st : BState) (d : String), d ∈ ds →
      d ∈ (addList g fuel ds st).seen := by
  intro ds
  induction ds with
  | nil => intro st d hd; cases hd
  | cons e ds ih =>
    intro st d hd
    rw [addList_cons]
    rcases List.mem_cons.mp hd with h | h
    · subst h
      exact seen_subset_addList g fuel _ _ (mem_seen_add g fuel d st hf)
    · exact ih _ d h

/-! ## The fuel measure: names of the universe not yet seen -/

/-- Number of names of univ not yet in the seen list (with
multiplicity). -/
def unvisited (univ seen : List String) : Nat :=
  (univ.filter (fun x => decide (x ∉ seen))).length

theorem unvisited_le_of_subset (univ : List String) {s1 s2 : List String}
    (h : s1 ⊆ s2) : unvisited univ s2 ≤ unvisited univ s1 := by
  refine List.Sublist.length_le (List.monotone_filter_right univ ?_)
  intro a ha
  simp only [decide_eq_true_eq] at ha ⊢
  exact fun hmem => ha (h hmem)

theorem unvisited_cons_lt (univ seen : List String) (n : String)
    (hU : n ∈ univ) (hn : n ∉ seen) :
    unvisited univ (n :: seen) < unvisited univ seen := by
  induction univ with
  | nil => cases hU
  | cons u us ih =>
    unfold unvisited at ih ⊢
    by_cases hu : u = n
    · subst hu
      rw [List.filter_cons, List.filter_cons]
      have h1 : (decide (u ∉ u :: seen)) = false := by simp
      have h2 : (decide (u ∉ seen)) = true := by simpa using hn
      simp only [h1, h2, Bool.false_eq_true, if_false, if_true, List.length_cons]
      have hle : unvisited us (u :: seen) ≤ unvisited us seen :=
        unvisited_le_of_subset us (fun x hx => List.mem_cons_of_mem _ hx)
      unfold unvisited at hle
      omega
    · have hU' : n ∈ us := by
        rcases List.mem_cons.mp hU with h | h
        · exact absurd h.symm hu
        · exact h
      rw [List.filter_cons, List.filter_cons]
      by_cases hus : u ∈ seen
      · have h1 : (decide (u ∉ n :: seen)) = false := by
          simp [List.mem_cons, hus]
        have h2 : (decide (u ∉ seen)) = false := by simpa using hus
        simp only [h1, h2, Bool.false_eq_true, if_false]
        exact ih hU'
      · have h1 : (decide (u ∉ n :: seen)) = true := by
          simp [List.mem_cons, hus, hu]
        have h2 : (decide (u ∉ seen)) = true := by simpa using hus
        simp only [h1, h2, if_true, List.length_cons]
        have := ih hU'
        omega

/-- Deps-closure of a universe of names: every declared dependency of
any name lies in the universe. -/
def DepsClosed (g : DescriptorGraph) (univ : List String) : Prop :=
  ∀ m d, d ∈ depsOf g m → d ∈ univ

theorem depsOf_subset_depNames (g : DescriptorGraph) (n d : String)
    (hd : d ∈ depsOf g n) : d ∈ depNames g := by
  unfold depsOf at hd
  rcases hfind : g.nodes.find? (fun p => p.1 == n) with _ | p
  · rw [hfind] at hd; cases hd
  · rw [hfind] at hd
    exact List.mem_flatMap.mpr ⟨p, List.mem_of_find?_eq_some hfind, hd⟩

theorem depsClosed_allNames (g : DescriptorGraph) (pre : List String) :
    DepsClosed g (pre ++ allNames g) := by
  intro m d hd
  refine List.mem_append.mpr (Or.inr ?_)
  exact List.mem_append.mpr (Or.inr (depsOf_subset_depNames g m d hd))

/-! ## Closure: with enough fuel, every newly seen name has all its
declared dependencies seen -/

theorem closure_add (g : DescriptorGraph) (univ : List String) (hC : DepsClosed g univ) :
    ∀ (fuel : Nat) (n : String) (st : BState), n ∈ univ →
      unvisited univ st.seen < fuel →
      ∀ m ∈ (add g fuel n st).seen,
        m ∈ st.seen ∨ ∀ d ∈ depsOf g m, d ∈ (add g fuel n st).seen := by
  intro fuel
  induction fuel with
  | zero => intro n st _ hlt; exact absurd hlt (Nat.not_lt_zero _)
  | succ f ih =>
    intro n st hnU hlt
    rw [add_succ]
    by_cases hn : n ∈ st.seen
    · rw [if_pos hn]; intro m hm; exact Or.inl hm
    · rw [if_neg hn]
      have hlt0 : unvisited univ (n :: st.seen) < unvisited univ st.seen :=
        unvisited_cons_lt univ st.seen n hnU hn
      have hf0 : unvisited univ (BState.mk (n :: st.seen) (st.file ++ [n])).seen < f := by
        simp only []
        omega
      have hfpos : 0 < f := by omega
      have hstep : ∀ (ds : List String) (st' : BState), (∀ d ∈ ds, d ∈ univ) →
          unvisited univ st'.seen < f →
          ∀ m ∈ (addList g f ds st').seen,
            m ∈ st'.seen ∨ ∀ d ∈ depsOf g m, d ∈ (addList g f ds st').seen := by
        intro ds
        induction ds with
        | nil => intro st' _ _ m hm; exact Or.inl hm
        | cons d ds ihd =>
          intro st' hds hlt' m hm
          rw [addList_cons] at hm ⊢
          have hltd : unvisited univ (add g f d st').seen < f :=
            lt_of_le_of_lt (unvisited_le_of_subset univ (seen_subset_add g f d st')) hlt'
          rcases ihd (add g f d st') (fun e he => hds e (List.mem_cons_of_mem _ he))
              hltd m hm with h | h
          · rcases ih d st' (hds d (List.mem_cons_self d ds)) hlt' m h with h2 | h2
            · exact Or.inl h2
            · exact Or.inr (fun e he => seen_subset_addList g f ds _ (h2 e he))
          · exact Or.inr h
      intro m hm
      rcases hstep (depsOf g n) ⟨n :: st.seen, st.file ++ [n]⟩
          (fun d hd => hC n d hd) hf0 m hm with h | h
      · rcases List.mem_cons.mp h with rfl | h2
        · exact Or.inr (fun d hd =>
            mem_seen_addList g f hfpos (depsOf g m) ⟨m :: st.seen, st.file ++ [m]⟩ d hd)
        · exact Or.inl h2
      · exact Or.inr h

theorem closure_addList (g : DescriptorGraph) (univ : List String) (hC : DepsClosed g univ)
    (fuel : Nat) :
    ∀ (ds : List String) (st : BState), (∀ d ∈ ds, d ∈ univ) →
      unvisited univ st.seen < fuel →
      ∀ m ∈ (addList g fuel ds st).seen,
        m ∈ st.seen ∨ ∀ d ∈ depsOf g m, d ∈ (addList g fuel ds st).seen := by
  intro ds
  induction ds with
  | nil => intro st _ _ m hm; exact Or.inl hm
  | cons d ds ihd =>
    intro st hds hlt m hm
    rw [addList_cons] at hm ⊢
    have hltd : unvisited univ (add g fuel d st).seen < fuel :=
      lt_of_le_of_lt (unvisited_le_of_subset univ (seen_subset_add g fuel d st)) hlt
    rcases ihd (add g fuel d st) (fun e he => hds e (List.mem_cons_of_mem _ he))
        hltd m hm with h | h
    · rcases closure_add g univ hC fuel d st (hds d (List.mem_cons_self d ds)) hlt m h
          with h2 | h2
      · exact Or.inl h2
      · exact Or.inr (fun e he => seen_subset_addList g fuel ds _ (h2 e he))
    · exact Or.inr h

/-! ## Fuel invariance: any two sufficient fuels give the same result -/

theorem add_fuel_invariant (g : DescriptorGraph) (univ : List String)
    (hC : DepsClosed g univ) :
    ∀ (f1 f2 : Nat) (n : String) (st : BState), n ∈ univ →
      unvisited univ st.seen < f1 → unvisited univ st.seen < f2 →
      add g f1 n st = add g f2 n st := by
  intro f1
  induction f1 with
  | zero => intro f2 n st _ h1 _; exact absurd h1 (Nat.not_lt_zero _)
  | succ a ih =>
    intro f2 n st hnU h1 h2
    cases f2 with
    | zero => exact absurd h2 (Nat.not_lt_zero _)
    | succ b =>
      rw [add_succ, add_succ]
      by_cases hn : n ∈ st.seen
      · rw [if_pos hn, if_pos hn]
      · rw [if_neg hn, if_neg hn]
        have hlt0 : unvisited univ (n :: st.seen) < unvisited univ st.seen :=
          unvisited_cons_lt univ st.seen n hnU hn
        have hstep : ∀ (ds : List String) (st' : BState), (∀ d ∈ ds, d ∈ univ) →
            unvisited univ st'.seen < a → unvisited univ st'.seen < b →
            addList g a ds st' = addList g b ds st' := by
          intro ds
          induction ds with
          | nil => intro st' _ _ _; rfl
          | cons d ds ihd =>
            intro st' hds ha hb
            rw [addList_cons, addList_cons,
              ih b d st' (hds d (List.mem_cons_self d ds)) ha hb]
            exact ihd (add g b d st') (fun e he => hds e (List.mem_cons_of_mem _ he))
              (lt_of_le_of_lt (unvisited_le_of_subset univ (seen_subset_add g b d st')) ha)
              (lt_of_le_of_lt (unvisited_le_of_subset univ (seen_subset_add g b d st')) hb)
        refine hstep (depsOf g n) ⟨n :: st.seen, st.file ++ [n]⟩
          (fun d hd => hC n d hd) ?_ ?_
        · simp only []; omega
        · simp only []; omega

theorem addList_fuel_invariant (g : DescriptorGraph) (univ : List String)
    (hC : DepsClosed g univ) (f1 f2 : Nat) :
    ∀ (ds : List String) (st : BState), (∀ d ∈ ds, d ∈ univ) →
      unvisited univ st.seen < f1 → unvisited univ st.seen < f2 →
      addList g f1 ds st = addList g f2 ds st := by
  intro ds
  induction ds with
  | nil => intro st _ _ _; rfl
  | cons d ds ihd =>
    intro st hds h1 h2
    rw [addList_cons, addList_cons,
      add_fuel_invariant g univ hC f1 f2 d st (hds d (List.mem_cons_self d ds)) h1 h2]
    exact ihd (add g f2 d st) (fun e he => hds e (List.mem_cons_of_mem _ he))
      (lt_of_le_of_lt (unvisited_le_of_subset univ (seen_subset_add g f2 d st)) h1)
      (lt_of_le_of_lt (unvisited_le_of_subset univ (seen_subset_add g f2 d st)) h2)

/-! ## The seen set only ever holds the start name, old names and
declared dependency names -/

theorem seen_bound_add (g : DescriptorGraph) :
    ∀ (fuel : Nat) (n : String) (st : BState), ∀ x ∈ (add g fuel n st).seen,
      x ∈ st.seen ∨ x = n ∨ x ∈ depNames g := by
  intro fuel
  induction fuel with
  | zero => intro n st x hx; exact Or.inl hx
  | succ f ih =>
    intro n st
    rw [add_succ]
    by_cases hn : n ∈ st.seen
    · rw [if_pos hn]; intro x hx; exact Or.inl hx
    · rw [if_neg hn]
      have hstep : ∀ (ds : List String) (st' : BState), (∀ d ∈ ds, d ∈ depNames g) →
          ∀ x ∈ (addList g f ds st').seen, x ∈ st'.seen ∨ x ∈ depNames g := by
        intro ds
        induction ds with
        | nil => intro st' _ x hx; exact Or.inl hx
        | cons d ds ihd =>
          intro st' hds x hx
          rw [addList_cons] at hx
          rcases ihd (add g f d st') (fun e he => hds e (List.mem_cons_of_mem _ he))
              x hx with h | h
          · rcases ih d st' x h with h2 | h2 | h2
            · exact Or.inl h2
            · exact Or.inr (h2 ▸ hds d (List.mem_cons_self d ds))
            · exact Or.inr h2
          · exact Or.inr h
      intro x hx
      rcases hstep (depsOf g n) ⟨n :: st.seen, st.file ++ [n]⟩
          (fun d hd => depsOf_subset_depNames g n d hd) x hx with h | h
      · rcases List.mem_cons.mp h with rfl | h2
        · exact Or.inr (Or.inl rfl)
        · exact Or.inl h2
      · exact Or.inr (Or.inr h)

/-! ## Facts about one full run of build_descriptor_set -/

theorem unvisited_nil_lt (g : DescriptorGraph) (roots : List String) :
    unvisited (roots ++ allNames g) [] < suffFuel g roots := by
  unfold unvisited suffFuel
  have := List.length_filter_le (fun x => decide (x ∉ ([] : List String)))
    (roots ++ allNames g)
  omega

theorem build_inv (g : DescriptorGraph) (roots : List String) :
    Inv (build_descriptor_set g roots) :=
  inv_addList g (suffFuel g roots) roots ⟨[], []⟩ ⟨List.nodup_nil, fun _ => Iff.rfl⟩

theorem build_seen_closed (g : DescriptorGraph) (roots : List String) :
    ∀ m ∈ (build_descriptor_set g roots).seen, ∀ d ∈ depsOf g m,
      d ∈ (build_descriptor_set g roots).seen := by
  intro m hm d hd
  rcases closure_addList g (roots ++ allNames g) (depsClosed_allNames g roots)
      (suffFuel g roots) roots ⟨[], []⟩ (fun r hr => List.mem_append.mpr (Or.inl hr))
      (unvisited_nil_lt g roots) m hm with h | h
  · cases h
  · exact h d hd

theorem build_file_dep_closed (g : DescriptorGraph) (roots : List String) :
    ∀ m ∈ (build_descriptor_set g roots).file, ∀ d ∈ depsOf g m,
      d ∈ (build_descriptor_set g roots).file := by
  intro m hm d hd
  have hinv := build_inv g roots
  exact (hinv.2 d).mp (build_seen_closed g roots m ((hinv.2 m).mpr hm) d hd)

/-! ## Claim theorems for the descriptor traversal -/

/-- C1: every run of descriptor assembly yields a FileDescriptorSet
closed under dependency: whenever a descriptor is in the assembled set,
every descriptor reachable from it along declared dependency edges is
in the set too. -/
theorem descriptor_set_closed_under_dependency (g : DescriptorGraph) (roots : List String)
    (n m : String) (hn : n ∈ (build_descriptor_set g roots).file)
    (hr : Reaches g n m) : m ∈ (build_descriptor_set g roots).file := by
  have key : ∀ a c, Reaches g a c → a ∈ (build_descriptor_set g roots).file →
      c ∈ (build_descriptor_set g roots).file := by
    intro a c hac
    induction hac with
    | refl => exact fun h => h
    | step hab _ ih =>
      intro ha
      exact ih (build_file_dep_closed g roots _ ha _ hab)
  exact key n m hr hn

/-- C1 witness: in the graph where A depends on B and B depends on D,
the assembled set contains A, hence also the reachable D. -/
theorem descriptor_set_closed_under_dependency_witness :
    "D" ∈ (build_descriptor_set ⟨[("A", ["B"]), ("B", ["D"])]⟩ ["A"]).file :=
  descriptor_set_closed_under_dependency ⟨[("A", ["B"]), ("B", ["D"])]⟩ ["A"] "A" "D"
    (by decide)
    (@Reaches.step ⟨[("A", ["B"]), ("B", ["D"])]⟩ "A" "B" "D" (by decide)
      (@Reaches.step ⟨[("A", ["B"]), ("B", ["D"])]⟩ "B" "D" "D" (by decide)
        (Reaches.refl "D")))

/-- C2: for every descriptor graph, cyclic or with shared dependencies,
the assembled file list has no duplicates: each file name that appears
appears exactly once. -/
theorem descriptor_set_dedup (g : DescriptorGraph) (roots : List String) :
    (build_descriptor_set g roots).file.Nodup ∧
    ∀ n ∈ (build_descriptor_set g roots).file,
      (build_descriptor_set g roots).file.count n = 1 := by
  have hinv := build_inv g roots
  exact ⟨hinv.1, fun n hn => List.count_eq_one_of_mem hinv.1 hn⟩

/-- C2 witness: on a cyclic graph with a shared dependency, the shared
name X appears exactly once. -/
theorem descriptor_set_dedup_witness :
    (build_descriptor_set ⟨[("X", ["Y"]), ("Y", ["X", "Z"]), ("Z", [])]⟩
      ["X", "Y"]).file.count "X" = 1 :=
  (descriptor_set_dedup ⟨[("X", ["Y"]), ("Y", ["X", "Z"]), ("Z", [])]⟩ ["X", "Y"]).2
    "X" (by decide)

/-- C4: for roots A, B, C with A depending on B, B depending on D and C
also depending on B, the assembled set is exactly the four names A, B,
C, D, each once. -/
theorem demo_graph_build_exact :
    (build_descriptor_set ⟨[("A", ["B"]), ("B", ["D"]), ("C", ["B"]), ("D", [])]⟩
      ["A", "B", "C"]).file = ["A", "B", "D", "C"] ∧
    (build_descriptor_set ⟨[("A", ["B"]), ("B", ["D"]), ("C", ["B"]), ("D", [])]⟩
      ["A", "B", "C"]).file.Perm ["A", "B", "C", "D"] ∧
    (build_descriptor_set ⟨[("A", ["B"]), ("B", ["D"]), ("C", ["B"]), ("D", [])]⟩
      ["A", "B", "C"]).file.Nodup := by
  refine ⟨?_, ?_, ?_⟩ <;> decide

/-- C5: the traversal starts from the three root modules in their fixed
source order; it is a depth-first pre-order walk: a fresh descriptor is
appended to the set immediately, before its dependencies are visited in
order, and an already-seen file name returns at once without appending
anything. -/
theorem traversal_preorder (g : DescriptorGraph) (r1 r2 r3 : String) :
    MODULES = ["xai_sdk.proto.v6.collections_pb2", "xai_sdk.proto.v6.types_pb2",
      "xai_sdk.proto.v6.shared_pb2"] ∧
    build_descriptor_set g [r1, r2, r3] =
      add g (suffFuel g [r1, r2, r3]) r3
        (add g (suffFuel g [r1, r2, r3]) r2
          (add g (suffFuel g [r1, r2, r3]) r1 ⟨[], []⟩)) ∧
    (∀ (fuel : Nat) (n : String) (st : BState), n ∈ st.seen → add g fuel n st = st) ∧
    (∀ (fuel : Nat) (n : String) (st : BState), n ∉ st.seen →
      add g (fuel + 1) n st =
        addList g fuel (depsOf g n) ⟨n :: st.seen, st.file ++ [n]⟩) ∧
    (∀ (fuel : Nat) (n : String) (st : BState), n ∉ st.seen → 0 < fuel →
      ∃ t, (add g fuel n st).file = st.file ++ n :: t) := by
  refine ⟨rfl, rfl, fun fuel n st h => add_of_mem_seen g fuel n st h, ?_, ?_⟩
  · intro fuel n st h
    rw [add_succ, if_neg h]
  · intro fuel n st h hf
    cases fuel with
    | zero => exact absurd hf (by omega)
    | succ f =>
      rw [add_succ, if_neg h]
      obtain ⟨t, ht⟩ := file_extend_addList g f (depsOf g n) ⟨n :: st.seen, st.file ++ [n]⟩
      exact ⟨t, by rw [ht]; simp⟩

/-- C5 witness: on a concrete two-node graph, a fresh root R is placed
at the front of the produced file list before anything contributed by
its dependencies. -/
theorem traversal_preorder_witness :
    ∃ t, (add ⟨[("R", ["S"]), ("S", [])]⟩ 3 "R" ⟨[], []⟩).file = [] ++ "R" :: t :=
  (traversal_preorder ⟨[("R", ["S"]), ("S", [])]⟩ "R" "S" "S").2.2.2.2 3 "R" ⟨[], []⟩
    (by decide) (by decide)

/-- C9: the traversal of any finite descriptor graph, cyclic ones
included, terminates: the fuel-indexed approximations agree from the
sufficient stock onward, a call on a seen name returns at once, a call
on a fresh name strictly enlarges the seen set, and the seen set only
ever gains the start name or declared dependency names of the graph. -/
theorem traversal_terminates (g : DescriptorGraph) (roots : List String) :
    (∀ fuel : Nat, suffFuel g roots ≤ fuel →
      addList g fuel roots ⟨[], []⟩ = build_descriptor_set g roots) ∧
    (∀ (fuel : Nat) (n : String) (st : BState), n ∈ st.seen → add g fuel n st = st) ∧
    (∀ (fuel : Nat) (n : String) (st : BState), n ∉ st.seen → 0 < fuel →
      st.seen ⊆ (add g fuel n st).seen ∧
        ∃ x, x ∈ (add g fuel n st).seen ∧ x ∉ st.seen) ∧
    (∀ (fuel : Nat) (n : String) (st : BState), ∀ x ∈ (add g fuel n st).seen,
      x ∈ st.seen ∨ x = n ∨ x ∈ depNames g) := by
  refine ⟨?_, fun fuel n st h => add_of_mem_seen g fuel n st h, ?_,
    fun fuel n st => seen_bound_add g fuel n st⟩
  · intro fuel hf
    unfold build_descriptor_set
    refine addList_fuel_invariant g (roots ++ allNames g) (depsClosed_allNames g roots)
      fuel (suffFuel g roots) roots ⟨[], []⟩
      (fun r hr => List.mem_append.mpr (Or.inl hr)) ?_ ?_
    · exact lt_of_lt_of_le (unvisited_nil_lt g roots) hf
    · exact unvisited_nil_lt g roots
  · intro fuel n st h hf
    exact ⟨seen_subset_add g fuel n st, n, mem_seen_add g fuel n st hf, h⟩

/-- C9 witness: on the two-cycle P, Q the run stabilizes at generous
fuel, and a call on the fresh name P strictly enlarges the empty seen
set. -/
theorem traversal_terminates_witness :
    addList ⟨[("P", ["Q"]), ("Q", ["P"])]⟩ 20 ["P"] ⟨[], []⟩ =
      build_descriptor_set ⟨[("P", ["Q"]), ("Q", ["P"])]⟩ ["P"] ∧
    (∃ x, x ∈ (add ⟨[("P", ["Q"]), ("Q", ["P"])]⟩ 5 "P" ⟨[], []⟩).seen ∧
      x ∉ ([] : List String)) :=
  ⟨(traversal_terminates ⟨[("P", ["Q"]), ("Q", ["P"])]⟩ ["P"]).1 20 (by decide),
   ((traversal_terminates ⟨[("P", ["Q"]), ("Q", ["P"])]⟩ ["P"]).2.2.1 5 "P" ⟨[], []⟩
     (by decide) (by decide)).2⟩

/-! ## Claim theorems for the script's command construction and
control flow -/

set_option maxRecDepth 100000 in
/-- C6: the generator stage performs exactly one compiler invocation,
carrying the three output flags at once, the serialized descriptor set
as the only schema input, the three fixed proto files as targets, the
module path and per-file mappings in every option string, the
unimplemented-server requirement in the gRPC option, and the fixed
vtproto feature set. -/
theorem protoc_single_invocation (root desc : String) :
    protoc_invocations root desc = [protoc_cmd root desc] ∧
    (protoc_invocations root desc).length = 1 ∧
    protoc_cmd root desc =
      ["protoc", "--descriptor_set_in=" ++ desc,
       "xai/api/v1/collections.proto", "xai/api/v1/shared.proto", "xai/api/v1/types.proto",
       "--go_out=" ++ root, "--go_opt=" ++ go_opt,
       "--go-grpc_out=" ++ root, "--go-grpc_opt=" ++ grpc_opt,
       "--go-vtproto_out=" ++ root, "--go-vtproto_opt=" ++ vt_opt] ∧
    go_opt = "module=github.com/zchee/tumix/gollm/xai,Mxai/api/v1/collections.proto=github.com/zchee/tumix/gollm/xai/api/v1/collectionspb,Mxai/api/v1/shared.proto=github.com/zchee/tumix/gollm/xai/api/v1/sharedpb,Mxai/api/v1/types.proto=github.com/zchee/tumix/gollm/xai/api/v1/ragpb" ∧
    grpc_opt = "module=github.com/zchee/tumix/gollm/xai,require_unimplemented_servers=true,Mxai/api/v1/collections.proto=github.com/zchee/tumix/gollm/xai/api/v1/collectionspb,Mxai/api/v1/shared.proto=github.com/zchee/tumix/gollm/xai/api/v1/sharedpb,Mxai/api/v1/types.proto=github.com/zchee/tumix/gollm/xai/api/v1/ragpb" ∧
    vt_opt = "module=github.com/zchee/tumix/gollm/xai,features=size+equal+marshal+marshal_strict+unmarshal+unmarshal_unsafe+clone+pool,Mxai/api/v1/collections.proto=github.com/zchee/tumix/gollm/xai/api/v1/collectionspb,Mxai/api/v1/shared.proto=github.com/zchee/tumix/gollm/xai/api/v1/sharedpb,Mxai/api/v1/types.proto=github.com/zchee/tumix/gollm/xai/api/v1/ragpb" :=
  ⟨rfl, rfl, rfl, rfl, rfl, rfl⟩

/-- C8: with XAI_PY_PROTO_TMP set to /custom/tmp, the clone goes to
/custom/tmp/xai-sdk-python-proto/src and the descriptor file to
/custom/tmp/xai-sdk-python-proto/xai-sdk-python.desc, whatever the
platform temp directory is. -/
theorem custom_tmp_paths (tempdir : String) :
    cloneDest (some "/custom/tmp") tempdir = "/custom/tmp/xai-sdk-python-proto/src" ∧
    descFile (some "/custom/tmp") tempdir =
      "/custom/tmp/xai-sdk-python-proto/xai-sdk-python.desc" :=
  ⟨rfl, rfl⟩

/-- C10: if the repository-relative tools/bin directory is missing the
script exits at once with a message naming that directory and an empty
effect trace, whatever executables are resolvable; if it exists, the
dependency probe counts a tool as present when it resolves on the base
path or inside tools/bin, and a fully resolvable probe falls through to
main. -/
theorem tools_dir_guard (w : World) :
    (w.toolDirExists = false →
      script w = ([], Outcome.exitFailure ("missing tools directory: " ++ toolDirPath w))) ∧
    (w.toolDirExists = true →
      (∀ t ∈ REQUIRED_TOOLS, (w.whichBase t || w.inToolDir t) = true) →
      script w = mainRun w) := by
  constructor
  · intro h
    simp [script, h]
  · intro h hall
    have hnone : firstMissing w = none := by
      unfold firstMissing
      rw [List.find?_eq_none]
      intro t ht
      simp [whichAfterAppend, hall t ht]
    simp [script, h, hnone]

/-- C10 witness: with the tools directory missing the script stops with
the directory message even though every tool resolves; with it present,
tools living only in tools/bin satisfy the probe and main runs. -/
theorem tools_dir_guard_witness :
    script (World.mk "/repo" false (fun _ => true) (fun _ => true) none none "/tmp" false
        (fun _ => true) true true) =
      ([], Outcome.exitFailure "missing tools directory: /repo/tools/bin") ∧
    script (World.mk "/repo" true (fun _ => false) (fun _ => true) none none "/tmp" false
        (fun _ => true) true true) =
      mainRun (World.mk "/repo" true (fun _ => false) (fun _ => true) none none "/tmp" false
        (fun _ => true) true true) :=
  ⟨(tools_dir_guard _).1 rfl, (tools_dir_guard _).2 rfl (by decide)⟩

/-- C3 (amended): in every run where the tools directory exists and
some required executable fails to resolve on the augmented search path,
the script exits with the message naming the first missing tool and an
empty effect trace: nothing is removed, created or cloned.  When the
tools directory is missing the script also exits with no side effects,
but with the tools-directory message instead. -/
theorem missing_tool_aborts_before_side_effects (w : World) (t : String)
    (hdir : w.toolDirExists = true) (hmiss : firstMissing w = some t) :
    script w = ([], Outcome.exitFailure ("missing dependency: " ++ t)) ∧
    t ∈ REQUIRED_TOOLS ∧ whichAfterAppend w t = false := by
  refine ⟨?_, List.mem_of_find?_eq_some hmiss, ?_⟩
  · simp [script, hdir, hmiss]
  · have h := List.find?_some hmiss
    simpa using h

/-- C3 witness: with git on the base path but protoc nowhere, the
script exits naming protoc with an empty trace. -/
theorem missing_tool_aborts_witness :
    script (World.mk "/repo" true (fun s => s == "git") (fun _ => false) none none "/tmp"
        false (fun _ => true) true true) =
      ([], Outcome.exitFailure "missing dependency: protoc") :=
  (missing_tool_aborts_before_side_effects
    (World.mk "/repo" true (fun s => s == "git") (fun _ => false) none none "/tmp"
      false (fun _ => true) true true) "protoc" rfl (by decide)).1

/-- C3 counterexample: a run where a required tool (all of them, in
fact) is not resolvable on the search path, yet the exit message names
the missing tools directory, not any missing tool: the guard at the
entry block fires before the require probes. -/
theorem missing_tool_message_counterexample :
    (∃ t ∈ REQUIRED_TOOLS,
      whichAfterAppend (World.mk "/repo" false (fun _ => false) (fun _ => false) none none
        "/tmp" false (fun _ => true) true true) t = false) ∧
    script (World.mk "/repo" false (fun _ => false) (fun _ => false) none none
        "/tmp" false (fun _ => true) true true) =
      ([], Outcome.exitFailure "missing tools directory: /repo/tools/bin") ∧
    (∀ t ∈ REQUIRED_TOOLS,
      ("missing tools directory: /repo/tools/bin" : String) ≠ "missing dependency: " ++ t) := by
  refine ⟨?_, ?_, ?_⟩ <;> decide

/-- C7: when the tools all resolve but the git clone fails, the run
ends with the propagated subprocess failure of the clone command, not
success; no descriptor file is written, no module is imported and no
generation is attempted. -/
theorem clone_failure_stops_pipeline (w : World) (hdir : w.toolDirExists = true)
    (hprobe : firstMissing w = none) (hclone : w.cloneOk = false) :
    (script w).2 = Outcome.procFailure
        (gitCloneCmd (w.envRef.getD DEFAULT_REF) (cloneDest w.envTmp w.tempdir)) ∧
    (script w).2 ≠ Outcome.ok ∧
    (∀ p, Event.writeDesc p ∉ (script w).1) ∧
    (∀ c, Event.runProtoc c ∉ (script w).1) ∧
    (∀ m, Event.importMod m ∉ (script w).1) := by
  have hs : script w = mainRun w := by simp [script, hdir, hprobe]
  rw [hs]
  unfold mainRun
  simp only [hclone, Bool.not_false, if_true]
  refine ⟨trivial, by simp, ?_, ?_, ?_⟩ <;>
    intro x <;> by_cases ht : w.tmpExists <;> simp [ht]

/-- C7 witness: a concrete run with every tool present and a failing
clone ends in the propagated git failure with no descriptor write. -/
theorem clone_failure_witness :
    (script (World.mk "/repo" true (fun _ => true) (fun _ => false) none none "/tmp"
        false (fun _ => true) false true)).2 ≠ Outcome.ok ∧
    (∀ p, Event.writeDesc p ∉
      (script (World.mk "/repo" true (fun _ => true) (fun _ => false) none none "/tmp"
        false (fun _ => true) false true)).1) :=
  ⟨(clone_failure_stops_pipeline
      (World.mk "/repo" true (fun _ => true) (fun _ => false) none none "/tmp"
        false (fun _ => true) false true) rfl (by decide) rfl).2.1,
   (clone_failure_stops_pipeline
      (World.mk "/repo" true (fun _ => true) (fun _ => false) none none "/tmp"
        false (fun _ => true) false true) rfl (by decide) rfl).2.2.1⟩

end GenXaiProtos
